import Mathlib

/-
Verification of the memory-access benchmark programs of the repository:
exercice03/mxm_bloc.c (blocked matrix multiplication with its block-size
sweep, and the i-j-k / i-k-j loop-order comparison program) and
exercice01/exercice1.c (stride scan).

C doubles are modelled with exact rational entries (all program inputs are
small integers, and the claims compare accumulation orders, so the exact
model decides element-wise equality claims).  Each C for-loop is modelled
as a left fold over the exact list of indices the loop visits, and each
in-place array assignment as a pointwise functional update.
-/

/-- A square matrix of C doubles, modelled with exact rational entries. -/
def Mat : Type := ℕ → ℕ → ℚ

/-- The in-place element assignment `M[i][j] = v`. -/
def setM (M : Mat) (i j : ℕ) (v : ℚ) : Mat :=
  fun a b => if a = i ∧ b = j then v else M a b

/-- The all-zero accumulator matrix (`C[i][j] = 0.0` clearing loops). -/
def zeroMat : Mat := fun _ _ => 0

/-- Sum of `f` over the elements of a list. -/
def msum {α : Type} (l : List α) (f : α → ℚ) : ℚ := (l.map f).sum

/-- Index list visited by a C loop `for (x = 0; x < n; x += step)`
(for positive `step`): the multiples of `step` below `n`. -/
def stepRange (n step : ℕ) : List ℕ :=
  (List.range ((n + step - 1) / step)).map (fun b => b * step)

/-- One multiply-accumulate `C[i][j] += A[i][k] * B[k][j]` at the index
triple `t = (i, k, j)`. -/
def mmStep (A B : Mat) (C : Mat) (t : ℕ × ℕ × ℕ) : Mat :=
  setM C t.1 t.2.2 (C t.1 t.2.2 + A t.1 t.2.1 * B t.2.1 t.2.2)

/-- Running the multiply-accumulate body over a list of index triples. -/
def applyTriples (A B : Mat) (ts : List (ℕ × ℕ × ℕ)) (C : Mat) : Mat :=
  ts.foldl (mmStep A B) C

/-- The amount a single index triple contributes to the final value of
cell `(i, j)`. -/
def contrib (A B : Mat) (i j : ℕ) (t : ℕ × ℕ × ℕ) : ℚ :=
  if t.1 = i ∧ t.2.2 = j then A t.1 t.2.1 * B t.2.1 t.2.2 else 0

/-- The helper `min` of mxm_bloc.c (lines 7-9). -/
def MxmBloc.min (a b : ℕ) : ℕ := if a < b then a else b

/-- The function `matrix_multiply_standard` of mxm_bloc.c (lines 32-40):
loop nest ordered i (row), k (reduction), j (column), innermost body
`C[i][j] += A[i][k] * B[k][j]`. -/
def MxmBloc.matrix_multiply_standard (A B C : Mat) (n : ℕ) : Mat :=
  (List.range n).foldl (fun C i =>
    (List.range n).foldl (fun C k =>
      (List.range n).foldl (fun C j =>
        setM C i j (C i j + A i k * B k j)) C) C) C

/-- The function `matrix_multiply_blocked` of mxm_bloc.c (lines 12-29):
block loops ii, jj, kk each stepping by `block_size` from 0 while `< n`,
and within a block the i, k, j loops over the clamped ranges
`[ii, min(ii+block_size, n))` etc., with the same innermost body. -/
def MxmBloc.matrix_multiply_blocked (A B C : Mat) (n block_size : ℕ) : Mat :=
  (stepRange n block_size).foldl (fun C ii =>
    (stepRange n block_size).foldl (fun C jj =>
      (stepRange n block_size).foldl (fun C kk =>
        (List.range' ii (MxmBloc.min (ii + block_size) n - ii)).foldl (fun C i =>
          (List.range' kk (MxmBloc.min (kk + block_size) n - kk)).foldl (fun C k =>
            (List.range' jj (MxmBloc.min (jj + block_size) n - jj)).foldl (fun C j =>
              setM C i j (C i j + A i k * B k j)) C) C) C) C) C) C

/-- The clamped tile `[b, min(b + S, n))` of the blocked loops. -/
def MxmBloc.tile (n S b : ℕ) : List ℕ :=
  List.range' b (MxmBloc.min (b + S) n - b)

/-- Index triples `(i, k, j)` visited by `matrix_multiply_standard`,
in visit order. -/
def MxmBloc.stdTriples (n : ℕ) : List (ℕ × ℕ × ℕ) :=
  (List.range n).flatMap (fun i =>
    (List.range n).flatMap (fun k =>
      (List.range n).map (fun j => (i, k, j))))

/-- Index triples `(i, k, j)` visited by `matrix_multiply_blocked`,
in visit order. -/
def MxmBloc.blkTriples (n S : ℕ) : List (ℕ × ℕ × ℕ) :=
  (stepRange n S).flatMap (fun ii =>
    (stepRange n S).flatMap (fun jj =>
      (stepRange n S).flatMap (fun kk =>
        (MxmBloc.tile n S ii).flatMap (fun i =>
          (MxmBloc.tile n S kk).flatMap (fun k =>
            (MxmBloc.tile n S jj).map (fun j => (i, k, j)))))))

/-- Number of iterations of a block loop `for (x = 0; x < n; x += S)`. -/
def MxmBloc.numBlocks (n S : ℕ) : ℕ := (n + S - 1) / S

/-- Start offset of the last tile along an axis. -/
def MxmBloc.lastTileStart (n S : ℕ) : ℕ := (MxmBloc.numBlocks n S - 1) * S

/-- Extent of the tile starting at `b`: `min(b + S, n) - b`. -/
def MxmBloc.tileExtent (n S b : ℕ) : ℕ := MxmBloc.min (b + S) n - b

/-- Concrete input matrix used to instantiate theorems with hypotheses. -/
def witA : Mat := fun a b => (a : ℚ) + 2 * b + 1

/-- Concrete input matrix used to instantiate theorems with hypotheses. -/
def witB : Mat := fun a b => (a : ℚ) * b + 3

/-- The swept candidate list `block_sizes` (mxm_bloc.c line 84). -/
def MxmBloc.block_sizes : List ℕ := [8, 16, 32, 64, 128, 256]

/-- One iteration of the benchmark sweep (mxm_bloc.c lines 87-120), reduced
to the speedup bookkeeping: the state is `(standard_time, records so far)`
and `cfg = (bs_idx, block_size)`.  `times bs_idx` is the measured elapsed
time in milliseconds of iteration `bs_idx` (an input of the model, timing
being external).  Following lines 112-116, `standard_time` is reassigned
whenever `block_size == 512 || bs_idx == 0`, and the recorded speedup is
`standard_time / msec`. -/
def MxmBloc.sweepStep (times : ℕ → ℚ) (st : ℚ × List ℚ) (cfg : ℕ × ℕ) :
    ℚ × List ℚ :=
  let msec := times cfg.1
  let standard_time := if cfg.2 = 512 ∨ cfg.1 = 0 then msec else st.1
  (standard_time, st.2 ++ [standard_time / msec])

/-- The list of speedups recorded by the whole sweep, in sweep order;
`standard_time` starts at 0 (mxm_bloc.c line 79). -/
def MxmBloc.sweepSpeedups (sizes : List ℕ) (times : ℕ → ℚ) : List ℚ :=
  (sizes.enum.foldl (MxmBloc.sweepStep times) (0, [])).2

/-- The matrix dimension macro N (mxm_bloc.c line 5). -/
def MxmBloc.N : ℕ := 512

/-- Rough traffic estimate of mxm_bloc.c line 80:
`total_ops = 4LL * N * N * N`. -/
def MxmBloc.total_ops : ℤ := 4 * (MxmBloc.N : ℤ) * MxmBloc.N * MxmBloc.N

/-- Byte traffic estimate of line 81: `total_bytes = total_ops *
sizeof(double)` with sizeof(double) = 8. -/
def MxmBloc.total_bytes : ℤ := MxmBloc.total_ops * 8

/-- Achieved bandwidth of line 109:
`bandwidth = total_bytes * (1000.0 / msec) / (1024 * 1024)`. -/
def MxmBloc.bandwidth (msec : ℚ) : ℚ :=
  (MxmBloc.total_bytes : ℚ) * (1000 / msec) / (1024 * 1024)

/-- Observable outcome of the startup phase of main, before any
multiplication work: either control proceeds into the benchmark, or the
program prints a diagnostic and exits with the given status. -/
inductive StartupOutcome : Type
  | proceed : StartupOutcome
  | diagExit : String → ℕ → StartupOutcome

/-- Control flow of mxm_bloc.c main, lines 44-69: the malloc results for
the three row-pointer tables (lines 44-46) and the 3·N rows (lines 48-52)
are stored without any null check, so `allocOk` (whether each successive
malloc returns non-null) never influences control flow; the only branch
that prints a diagnostic and exits before the multiplication work is the
fopen null check of lines 66-69, which calls exit(EXIT_FAILURE), status 1. -/
def MxmBloc.mainStartup (allocOk : ℕ → Bool) (fopenOk : Bool) : StartupOutcome :=
  if fopenOk then StartupOutcome.proceed
  else StartupOutcome.diagExit "Error opening file!" 1

/-- State of the seeding loop of mxm_bloc.c lines 55-62: how many rand()
values have been consumed so far, and the three matrices. -/
structure SeedState : Type where
  cnt : ℕ
  A : Mat
  B : Mat
  C : Mat

/-- The row-major (i, j) visit order of the seeding loop. -/
def pairList (n : ℕ) : List (ℕ × ℕ) :=
  (List.range n).flatMap (fun i => (List.range n).map (fun j => (i, j)))

/-- Body of the seeding loop (lines 58-60): `A[i][j] = (rand() % 10) + 1.0`,
then `B[i][j] = (rand() % 10) + 1.0`, then `C[i][j] = 0.0`, where `r` is the
stream of rand() outputs fixed by srand(42). -/
def seedStep (r : ℕ → ℕ) (s : SeedState) (p : ℕ × ℕ) : SeedState :=
  { cnt := s.cnt + 2
    A := setM s.A p.1 p.2 ((r s.cnt % 10 : ℕ) + 1)
    B := setM s.B p.1 p.2 ((r (s.cnt + 1) % 10 : ℕ) + 1)
    C := setM s.C p.1 p.2 0 }

/-- The whole seeding loop of mxm_bloc.c lines 55-62. -/
def seedMatrices (r : ℕ → ℕ) (n : ℕ) (s : SeedState) : SeedState :=
  (pairList n).foldl (seedStep r) s

/-- Full memory state visible to a multiplication call: the matrices A, B
and the accumulator C. -/
structure MMState : Type where
  A : Mat
  B : Mat
  C : Mat

/-- matrix_multiply_standard acting on the full state: the literal loop
body writes only into the C component. -/
def MxmBloc.standardState (n : ℕ) (s : MMState) : MMState :=
  (List.range n).foldl (fun s i =>
    (List.range n).foldl (fun s k =>
      (List.range n).foldl (fun s j =>
        ⟨s.A, s.B, setM s.C i j (s.C i j + s.A i k * s.B k j)⟩) s) s) s

/-- matrix_multiply_blocked acting on the full state. -/
def MxmBloc.blockedState (n S : ℕ) (s : MMState) : MMState :=
  (stepRange n S).foldl (fun s ii =>
    (stepRange n S).foldl (fun s jj =>
      (stepRange n S).foldl (fun s kk =>
        (List.range' ii (MxmBloc.min (ii + S) n - ii)).foldl (fun s i =>
          (List.range' kk (MxmBloc.min (kk + S) n - kk)).foldl (fun s k =>
            (List.range' jj (MxmBloc.min (jj + S) n - jj)).foldl (fun s j =>
              ⟨s.A, s.B, setM s.C i j (s.C i j + s.A i k * s.B k j)⟩)
                s) s) s) s) s) s

/-- Dimension macro R1 of the loop-order comparison program (the second
program kept in mxm_bloc.c; all four macros equal 512). -/
def MxmLoops.R1 : ℕ := 512

/-- Dimension macro R2 of the loop-order comparison program. -/
def MxmLoops.R2 : ℕ := 512

/-- Dimension macro C2 of the loop-order comparison program. -/
def MxmLoops.C2 : ℕ := 512

/-- The i-j-k loop nest of the comparison program (lines 235-241 of the
concatenated source): `result_ijk[i][j] += m1[i][k] * m2[k][j]` with loops
i < R1, j < C2, k < R2, outermost to innermost. -/
def MxmLoops.ijk_loop (m1 m2 R : Mat) (r1 c2 r2 : ℕ) : Mat :=
  (List.range r1).foldl (fun R i =>
    (List.range c2).foldl (fun R j =>
      (List.range r2).foldl (fun R k =>
        setM R i j (R i j + m1 i k * m2 k j)) R) R) R

/-- The i-k-j loop nest of the comparison program (lines 254-260):
`result_ikj[i][j] += m1[i][k] * m2[k][j]` with loops i < R1, k < R2,
j < C2, outermost to innermost. -/
def MxmLoops.ikj_loop (m1 m2 R : Mat) (r1 r2 c2 : ℕ) : Mat :=
  (List.range r1).foldl (fun R i =>
    (List.range r2).foldl (fun R k =>
      (List.range c2).foldl (fun R j =>
        setM R i j (R i j + m1 i k * m2 k j)) R) R) R

/-- Index triples `(i, k, j)` visited by the i-j-k nest, in visit order. -/
def MxmLoops.ijkTriples (r1 c2 r2 : ℕ) : List (ℕ × ℕ × ℕ) :=
  (List.range r1).flatMap (fun i =>
    (List.range c2).flatMap (fun j =>
      (List.range r2).map (fun k => (i, k, j))))

/-- Index triples `(i, k, j)` visited by the i-k-j nest, in visit order. -/
def MxmLoops.ikjTriples (r1 r2 c2 : ℕ) : List (ℕ × ℕ × ℕ) :=
  (List.range r1).flatMap (fun i =>
    (List.range r2).flatMap (fun k =>
      (List.range c2).map (fun j => (i, k, j))))

/-- The stride macro MAX_STRIDE of exercice01/exercice1.c (line 5). -/
def Exercice1.MAX_STRIDE : ℕ := 20

/-- The element count N of exercice01/exercice1.c (line 11). -/
def Exercice1.N : ℕ := 1000000

/-- Indices visited by the scan `for (i = 0; i < N * i_stride; i += i_stride)`
(exercice1.c line 28). -/
def Exercice1.stride_indices (n stride : ℕ) : List ℕ :=
  stepRange (n * stride) stride

/-- The buffer after the initialization loop of exercice1.c lines 17-18:
every cell below N * MAX_STRIDE holds 1.0; outside the allocation the
content stays whatever garbage `a₀` held. -/
def Exercice1.initBuffer (a₀ : ℕ → ℚ) : ℕ → ℚ :=
  fun i => if i < Exercice1.N * Exercice1.MAX_STRIDE then 1 else a₀ i

/-- The strided accumulation `sum += a[i]` of exercice1.c lines 24-29,
starting from sum = 0.0. -/
def Exercice1.stride_sum (a : ℕ → ℚ) (n stride : ℕ) : ℚ :=
  (Exercice1.stride_indices n stride).foldl (fun sum i => sum + a i) 0

/-- Concrete measured-times input used to instantiate the sweep theorem. -/
def witTimes : ℕ → ℚ := fun i => (i : ℚ) + 1

/-- Concrete rand() stream used to instantiate the seeding theorem. -/
def witR : ℕ → ℕ := fun k => 3 * k + 7

theorem msum_nil {α : Type} (f : α → ℚ) : msum [] f = 0 := rfl

theorem msum_cons {α : Type} (a : α) (l : List α) (f : α → ℚ) :
    msum (a :: l) f = f a + msum l f := by
  simp [msum]

theorem msum_append {α : Type} (l₁ l₂ : List α) (f : α → ℚ) :
    msum (l₁ ++ l₂) f = msum l₁ f + msum l₂ f := by
  simp [msum]

theorem msum_congr {α : Type} {l : List α} {f g : α → ℚ}
    (h : ∀ a ∈ l, f a = g a) : msum l f = msum l g := by
  induction l with
  | nil => rfl
  | cons a l ih =>
      rw [msum_cons, msum_cons, h a (List.mem_cons_self a l),
        ih (fun x hx => h x (List.mem_cons_of_mem a hx))]

theorem msum_zero_fun {α : Type} (l : List α) : msum l (fun _ => (0 : ℚ)) = 0 := by
  induction l with
  | nil => rfl
  | cons a l ih => rw [msum_cons, ih, add_zero]

theorem msum_eq_zero {α : Type} {l : List α} {f : α → ℚ}
    (h : ∀ a ∈ l, f a = 0) : msum l f = 0 := by
  rw [msum_congr h, msum_zero_fun]

theorem msum_add {α : Type} (l : List α) (f g : α → ℚ) :
    msum l (fun a => f a + g a) = msum l f + msum l g := by
  induction l with
  | nil => simp [msum_nil]
  | cons a l ih => rw [msum_cons, msum_cons, msum_cons, ih]; ring

theorem msum_flatMap {α β : Type} (l : List α) (g : α → List β) (f : β → ℚ) :
    msum (l.flatMap g) f = msum l (fun a => msum (g a) f) := by
  induction l with
  | nil => rfl
  | cons a l ih => rw [List.flatMap_cons, msum_append, msum_cons, ih]

theorem msum_map {α β : Type} (l : List α) (g : α → β) (f : β → ℚ) :
    msum (l.map g) f = msum l (fun a => f (g a)) := by
  rw [msum, msum, List.map_map]
  rfl

theorem msum_comm {α β : Type} (l : List α) (m : List β) (h : α → β → ℚ) :
    msum l (fun a => msum m (fun b => h a b)) =
      msum m (fun b => msum l (fun a => h a b)) := by
  induction l with
  | nil => rw [msum_nil, eq_comm]; exact msum_zero_fun m
  | cons a l ih =>
      rw [msum_cons, ih, ← msum_add]
      exact msum_congr (fun b _ => (msum_cons a l (fun a => h a b)).symm)

theorem msum_ite_point (l : List ℕ) (hl : l.Nodup) (i : ℕ) (hi : i ∈ l) (f : ℕ → ℚ) :
    msum l (fun x => if x = i then f x else 0) = f i := by
  induction l with
  | nil => cases hi
  | cons a l ih =>
      rw [msum_cons]
      rcases List.mem_cons.mp hi with h | h
      · subst h
        rw [if_pos rfl, msum_eq_zero, add_zero]
        intro x hx
        have hxne : x ≠ i := fun he => (List.nodup_cons.mp hl).1 (he ▸ hx)
        exact if_neg hxne
      · have ha : a ≠ i := fun he => (List.nodup_cons.mp hl).1 (he ▸ h)
        rw [if_neg ha, ih (List.nodup_cons.mp hl).2 h, zero_add]

theorem msum_ite_and (l : List ℕ) (P : Prop) [Decidable P] (Q : ℕ → Prop)
    [DecidablePred Q] (f : ℕ → ℚ) :
    msum l (fun x => if P ∧ Q x then f x else 0) =
      if P then msum l (fun x => if Q x then f x else 0) else 0 := by
  by_cases hP : P
  · rw [if_pos hP]
    exact msum_congr (fun x _ => by by_cases hQ : Q x <;> simp [hP, hQ])
  · rw [if_neg hP]
    exact msum_eq_zero (fun x _ => by simp [hP])

theorem msum_ite_const (l : List ℕ) (P : Prop) [Decidable P] (f : ℕ → ℚ) :
    msum l (fun x => if P then f x else 0) = if P then msum l f else 0 := by
  by_cases hP : P <;> simp [hP, msum_eq_zero]

theorem msum_range_eq_finset (f : ℕ → ℚ) (n : ℕ) :
    msum (List.range n) f = ∑ k ∈ Finset.range n, f k := by
  induction n with
  | zero => rfl
  | succ n ih =>
      rw [List.range_succ, msum_append, ih, Finset.sum_range_succ, msum_cons, msum_nil,
        add_zero]

theorem foldl_flatMap {α β γ : Type} (l : List α) (g : α → List β)
    (f : γ → β → γ) (c : γ) :
    (l.flatMap g).foldl f c = l.foldl (fun c a => (g a).foldl f c) c := by
  induction l generalizing c with
  | nil => rfl
  | cons a l ih => rw [List.flatMap_cons, List.foldl_append, List.foldl_cons, ih]

theorem stepRange_cover (n S : ℕ) (hS : 1 ≤ S) :
    (stepRange n S).flatMap (fun b => List.range' b (min (b + S) n - b)) =
      List.range n := by
  have aux : ∀ m : ℕ,
      ((List.range m).map (fun b => b * S)).flatMap
          (fun b => List.range' b (min (b + S) n - b)) =
        List.range' 0 (min (m * S) n) := by
    intro m
    induction m with
    | zero => simp
    | succ m ih =>
        rw [List.range_succ, List.map_append, List.flatMap_append, ih]
        simp only [List.map_cons, List.map_nil, List.flatMap_cons, List.flatMap_nil,
          List.append_nil]
        have hmul : (m + 1) * S = m * S + S := by ring
        rcases le_or_lt n (m * S) with h | h
        · have h1 : min (m * S) n = n := by omega
          have h2 : min (m * S + S) n - m * S = 0 := by
            have : min (m * S + S) n = n := by omega
            omega
          have h3 : min ((m + 1) * S) n = n := by omega
          rw [h1, h2, h3]
          simp
        · have h1 : min (m * S) n = m * S := by omega
          have happ := List.range'_append 0 (m * S) (min (m * S + S) n - m * S) 1
          simp only [one_mul, zero_add] at happ
          rw [h1, happ]
          congr 1
          have hmin : min (m * S + S) n ≤ n := min_le_right _ _
          have hmin2 : m * S ≤ min (m * S + S) n := by omega
          omega
  have hlen : n ≤ ((n + S - 1) / S) * S := by
    have hdm := Nat.div_add_mod (n + S - 1) S
    have hlt : (n + S - 1) % S < S := Nat.mod_lt _ hS
    rw [Nat.mul_comm]
    omega
  rw [stepRange, aux ((n + S - 1) / S)]
  have : min (((n + S - 1) / S) * S) n = n := by omega
  rw [this, List.range_eq_range']

theorem stepRange_mul_length (n s : ℕ) (hs : 1 ≤ s) :
    (stepRange (n * s) s).length = n := by
  rw [stepRange, List.length_map, List.length_range]
  apply Nat.div_eq_of_lt_le
  · omega
  · have : (n + 1) * s = n * s + s := by ring
    omega

theorem mem_stepRange_lt {n s x : ℕ} (hs : 1 ≤ s) (hx : x ∈ stepRange n s) :
    x < n := by
  rw [stepRange, List.mem_map] at hx
  obtain ⟨b, hb, rfl⟩ := hx
  rw [List.mem_range] at hb
  have h1 : b * s ≤ ((n + s - 1) / s - 1) * s :=
    Nat.mul_le_mul_right s (by omega)
  have h2 : ((n + s - 1) / s - 1) * s = (n + s - 1) / s * s - s := by
    rw [Nat.sub_mul, one_mul]
  have h3 : (n + s - 1) / s * s ≤ n + s - 1 := Nat.div_mul_le_self _ _
  have h4 : s ≤ (n + s - 1) / s * s :=
    Nat.le_mul_of_pos_left s (by omega)
  omega

theorem MxmBloc.min_eq (a b : ℕ) : MxmBloc.min a b = Min.min a b := by
  rw [MxmBloc.min]
  split <;> omega

theorem applyTriples_apply (A B : Mat) (ts : List (ℕ × ℕ × ℕ)) (C : Mat) (i j : ℕ) :
    applyTriples A B ts C i j = C i j + msum ts (contrib A B i j) := by
  induction ts generalizing C with
  | nil => rw [msum_nil, add_zero]; rfl
  | cons t ts ih =>
      have hstep : mmStep A B C t i j = C i j + contrib A B i j t := by
        rw [mmStep, setM, contrib]
        by_cases hI : i = t.1
        · by_cases hJ : j = t.2.2
          · rw [if_pos ⟨hI, hJ⟩, if_pos ⟨hI.symm, hJ.symm⟩, hI, hJ]
          · rw [if_neg (fun h => hJ h.2), if_neg (fun h => hJ h.2.symm), add_zero]
        · rw [if_neg (fun h => hI h.1), if_neg (fun h => hI h.1.symm), add_zero]
      show applyTriples A B ts (mmStep A B C t) i j = _
      rw [ih, hstep, msum_cons]
      ring

theorem MxmBloc.standard_eq_applyTriples (A B C : Mat) (n : ℕ) :
    MxmBloc.matrix_multiply_standard A B C n =
      applyTriples A B (MxmBloc.stdTriples n) C := by
  rw [MxmBloc.matrix_multiply_standard, MxmBloc.stdTriples, applyTriples]
  simp only [foldl_flatMap, List.foldl_map, mmStep]

theorem MxmBloc.blocked_eq_applyTriples (A B C : Mat) (n S : ℕ) :
    MxmBloc.matrix_multiply_blocked A B C n S =
      applyTriples A B (MxmBloc.blkTriples n S) C := by
  rw [MxmBloc.matrix_multiply_blocked, MxmBloc.blkTriples, applyTriples]
  simp only [foldl_flatMap, List.foldl_map, mmStep, MxmBloc.tile]

theorem MxmBloc.tile_cover (n S : ℕ) (hS : 1 ≤ S) :
    (stepRange n S).flatMap (MxmBloc.tile n S) = List.range n := by
  have ht : MxmBloc.tile n S = fun b => List.range' b (Min.min (b + S) n - b) := by
    funext b
    rw [MxmBloc.tile, MxmBloc.min_eq]
  rw [ht]
  exact stepRange_cover n S hS

theorem MxmBloc.msum_tile_cover (n S : ℕ) (hS : 1 ≤ S) (g : ℕ → ℚ) :
    msum (stepRange n S) (fun b => msum (MxmBloc.tile n S b) g) =
      msum (List.range n) g := by
  rw [← msum_flatMap, MxmBloc.tile_cover n S hS]

theorem MxmBloc.blk_sum_eq_std_sum (A B : Mat) (n S : ℕ) (hS : 1 ≤ S) (i j : ℕ) :
    msum (MxmBloc.blkTriples n S) (contrib A B i j) =
      msum (MxmBloc.stdTriples n) (contrib A B i j) := by
  have hstd : msum (MxmBloc.stdTriples n) (contrib A B i j) =
      msum (List.range n) (fun a =>
        msum (List.range n) (fun k =>
          msum (List.range n) (fun b => contrib A B i j (a, k, b)))) := by
    rw [MxmBloc.stdTriples]
    simp only [msum_flatMap, msum_map]
  have hblk : msum (MxmBloc.blkTriples n S) (contrib A B i j) =
      msum (stepRange n S) (fun ii =>
        msum (stepRange n S) (fun jj =>
          msum (stepRange n S) (fun kk =>
            msum (MxmBloc.tile n S ii) (fun a =>
              msum (MxmBloc.tile n S kk) (fun k =>
                msum (MxmBloc.tile n S jj) (fun b =>
                  contrib A B i j (a, k, b))))))) := by
    rw [MxmBloc.blkTriples]
    simp only [msum_flatMap, msum_map]
  rw [hblk, hstd]
  have h1 : ∀ ii jj,
      msum (stepRange n S) (fun kk =>
        msum (MxmBloc.tile n S ii) (fun a =>
          msum (MxmBloc.tile n S kk) (fun k =>
            msum (MxmBloc.tile n S jj) (fun b => contrib A B i j (a, k, b))))) =
      msum (MxmBloc.tile n S ii) (fun a =>
        msum (List.range n) (fun k =>
          msum (MxmBloc.tile n S jj) (fun b => contrib A B i j (a, k, b)))) := by
    intro ii jj
    calc msum (stepRange n S) (fun kk =>
            msum (MxmBloc.tile n S ii) (fun a =>
              msum (MxmBloc.tile n S kk) (fun k =>
                msum (MxmBloc.tile n S jj) (fun b => contrib A B i j (a, k, b)))))
        = msum (MxmBloc.tile n S ii) (fun a =>
            msum (stepRange n S) (fun kk =>
              msum (MxmBloc.tile n S kk) (fun k =>
                msum (MxmBloc.tile n S jj) (fun b => contrib A B i j (a, k, b))))) :=
          msum_comm _ _ _
      _ = msum (MxmBloc.tile n S ii) (fun a =>
            msum (List.range n) (fun k =>
              msum (MxmBloc.tile n S jj) (fun b => contrib A B i j (a, k, b)))) :=
          msum_congr (fun a _ => MxmBloc.msum_tile_cover n S hS _)
  have h2 : ∀ ii,
      msum (stepRange n S) (fun jj =>
        msum (MxmBloc.tile n S ii) (fun a =>
          msum (List.range n) (fun k =>
            msum (MxmBloc.tile n S jj) (fun b => contrib A B i j (a, k, b))))) =
      msum (MxmBloc.tile n S ii) (fun a =>
        msum (List.range n) (fun k =>
          msum (List.range n) (fun b => contrib A B i j (a, k, b)))) := by
    intro ii
    calc msum (stepRange n S) (fun jj =>
            msum (MxmBloc.tile n S ii) (fun a =>
              msum (List.range n) (fun k =>
                msum (MxmBloc.tile n S jj) (fun b => contrib A B i j (a, k, b)))))
        = msum (MxmBloc.tile n S ii) (fun a =>
            msum (stepRange n S) (fun jj =>
              msum (List.range n) (fun k =>
                msum (MxmBloc.tile n S jj) (fun b => contrib A B i j (a, k, b))))) :=
          msum_comm _ _ _
      _ = msum (MxmBloc.tile n S ii) (fun a =>
            msum (List.range n) (fun k =>
              msum (stepRange n S) (fun jj =>
                msum (MxmBloc.tile n S jj) (fun b => contrib A B i j (a, k, b))))) :=
          msum_congr (fun a _ => msum_comm _ _ _)
      _ = msum (MxmBloc.tile n S ii) (fun a =>
            msum (List.range n) (fun k =>
              msum (List.range n) (fun b => contrib A B i j (a, k, b)))) :=
          msum_congr (fun a _ =>
            msum_congr (fun k _ => MxmBloc.msum_tile_cover n S hS _))
  calc msum (stepRange n S) (fun ii =>
          msum (stepRange n S) (fun jj =>
            msum (stepRange n S) (fun kk =>
              msum (MxmBloc.tile n S ii) (fun a =>
                msum (MxmBloc.tile n S kk) (fun k =>
                  msum (MxmBloc.tile n S jj) (fun b => contrib A B i j (a, k, b)))))))
      = msum (stepRange n S) (fun ii =>
          msum (stepRange n S) (fun jj =>
            msum (MxmBloc.tile n S ii) (fun a =>
              msum (List.range n) (fun k =>
                msum (MxmBloc.tile n S jj) (fun b => contrib A B i j (a, k, b)))))) :=
        msum_congr (fun ii _ => msum_congr (fun jj _ => h1 ii jj))
    _ = msum (stepRange n S) (fun ii =>
          msum (MxmBloc.tile n S ii) (fun a =>
            msum (List.range n) (fun k =>
              msum (List.range n) (fun b => contrib A B i j (a, k, b))))) :=
        msum_congr (fun ii _ => h2 ii)
    _ = msum (List.range n) (fun a =>
          msum (List.range n) (fun k =>
            msum (List.range n) (fun b => contrib A B i j (a, k, b)))) :=
        MxmBloc.msum_tile_cover n S hS _

/-- C1: for every dimension n, every block size S with 1 ≤ S ≤ n, and all
inputs A, B with a common accumulator C, `matrix_multiply_blocked` produces
exactly the matrix `matrix_multiply_standard` produces (the exact-rational
model realises element-wise equality up to accumulation order; the degenerate
case S = n is the instance S = n of this statement). -/
theorem MxmBloc.blocked_matches_standard (A B C : Mat) (n S : ℕ)
    (hS : 1 ≤ S) (_hSn : S ≤ n) :
    MxmBloc.matrix_multiply_blocked A B C n S =
      MxmBloc.matrix_multiply_standard A B C n := by
  funext a b
  rw [MxmBloc.blocked_eq_applyTriples, MxmBloc.standard_eq_applyTriples,
    applyTriples_apply, applyTriples_apply, MxmBloc.blk_sum_eq_std_sum A B n S hS a b]

theorem MxmBloc.blocked_matches_standard_witness :
    1 ≤ 2 ∧ 2 ≤ 3 ∧
      MxmBloc.matrix_multiply_blocked witA witB zeroMat 3 2 =
        MxmBloc.matrix_multiply_standard witA witB zeroMat 3 :=
  ⟨by decide, by decide,
    MxmBloc.blocked_matches_standard witA witB zeroMat 3 2 (by decide) (by decide)⟩

/-- C3: on a zero-initialized accumulator, `matrix_multiply_standard`
leaves `C[i][j] = Σ_k A[i][k]·B[k][j]` for all i, j below n (the loop nest
of the definition is ordered i, k, j with k ascending). -/
theorem MxmBloc.standard_entry_eq_sum (A B : Mat) (n i j : ℕ)
    (hi : i < n) (hj : j < n) :
    MxmBloc.matrix_multiply_standard A B zeroMat n i j =
      ∑ k ∈ Finset.range n, A i k * B k j := by
  have h0 : MxmBloc.matrix_multiply_standard A B zeroMat n i j =
      applyTriples A B (MxmBloc.stdTriples n) zeroMat i j := by
    rw [MxmBloc.standard_eq_applyTriples]
  rw [h0, applyTriples_apply]
  have hz : zeroMat i j = 0 := rfl
  rw [hz, zero_add, MxmBloc.stdTriples]
  simp only [msum_flatMap, msum_map]
  have hinner : ∀ a k,
      msum (List.range n) (fun b => contrib A B i j (a, k, b)) =
        if a = i then A a k * B k j else 0 := by
    intro a k
    have he : (fun b => contrib A B i j (a, k, b)) =
        (fun b => if a = i ∧ b = j then A a k * B k b else 0) := rfl
    rw [he, msum_ite_and (List.range n) (a = i) (fun b => b = j)
      (fun b => A a k * B k b)]
    by_cases ha : a = i
    · rw [if_pos ha, if_pos ha,
        msum_ite_point (List.range n) (List.nodup_range n) j (List.mem_range.mpr hj)]
    · rw [if_neg ha, if_neg ha]
  have hmid : ∀ a,
      msum (List.range n)
          (fun k => msum (List.range n) (fun b => contrib A B i j (a, k, b))) =
        if a = i then msum (List.range n) (fun k => A a k * B k j) else 0 := by
    intro a
    rw [msum_congr (fun k _ => hinner a k),
      msum_ite_const (List.range n) (a = i) (fun k => A a k * B k j)]
  rw [msum_congr (fun a _ => hmid a),
    msum_ite_point (List.range n) (List.nodup_range n) i (List.mem_range.mpr hi),
    msum_range_eq_finset]

theorem MxmBloc.standard_entry_eq_sum_witness :
    0 < 2 ∧ 1 < 2 ∧
      MxmBloc.matrix_multiply_standard witA witB zeroMat 2 0 1 =
        ∑ k ∈ Finset.range 2, witA 0 k * witB k 1 :=
  ⟨by decide, by decide,
    MxmBloc.standard_entry_eq_sum witA witB 2 0 1 (by decide) (by decide)⟩

theorem MxmBloc.mem_tile_lt {n S b x : ℕ} (hx : x ∈ MxmBloc.tile n S b) : x < n := by
  rw [MxmBloc.tile, MxmBloc.min_eq] at hx
  have h := List.mem_range'_1.mp hx
  have hle : Min.min (b + S) n ≤ n := min_le_right _ _
  omega

/-- C2: for 1 ≤ S ≤ n, every element access of `matrix_multiply_blocked`
uses indices below n (the accessed cells are C[i][j], A[i][k], B[k][j] at
the visited triples (i, k, j)), and when S does not divide n the last tile
along an axis has clamped extent n mod S. -/
theorem MxmBloc.blocked_accesses_in_bounds (n S : ℕ) (hS : 1 ≤ S) (_hSn : S ≤ n) :
    (∀ t ∈ MxmBloc.blkTriples n S, t.1 < n ∧ t.2.1 < n ∧ t.2.2 < n) ∧
    (¬ S ∣ n → MxmBloc.tileExtent n S (MxmBloc.lastTileStart n S) = n % S) := by
  constructor
  · intro t ht
    rw [MxmBloc.blkTriples] at ht
    simp only [List.mem_flatMap, List.mem_map] at ht
    obtain ⟨ii, _, jj, _, kk, _, i, hi, k, hk, j, hj, rfl⟩ := ht
    exact ⟨MxmBloc.mem_tile_lt hi, MxmBloc.mem_tile_lt hk, MxmBloc.mem_tile_lt hj⟩
  · intro hdvd
    have hr0 : n % S ≠ 0 := fun h => hdvd (Nat.dvd_iff_mod_eq_zero.mpr h)
    have hrS : n % S < S := Nat.mod_lt _ hS
    have hdm : S * (n / S) + n % S = n := Nat.div_add_mod n S
    have hq : MxmBloc.numBlocks n S = n / S + 1 := by
      rw [MxmBloc.numBlocks]
      apply Nat.div_eq_of_lt_le
      · have : (n / S + 1) * S = S * (n / S) + S := by ring
        omega
      · have : (n / S + 1 + 1) * S = S * (n / S) + 2 * S := by ring
        omega
    have hstart : MxmBloc.lastTileStart n S = n / S * S := by
      rw [MxmBloc.lastTileStart, hq]
      simp
    rw [MxmBloc.tileExtent, hstart, MxmBloc.min_eq]
    have hc : n / S * S = S * (n / S) := Nat.mul_comm _ _
    have hmin : Min.min (n / S * S + S) n = n := by
      apply Nat.min_eq_right
      omega
    omega

theorem MxmBloc.blocked_accesses_in_bounds_witness :
    1 ≤ 3 ∧ 3 ≤ 4 ∧
      ((∀ t ∈ MxmBloc.blkTriples 4 3, t.1 < 4 ∧ t.2.1 < 4 ∧ t.2.2 < 4) ∧
        (¬ 3 ∣ 4 → MxmBloc.tileExtent 4 3 (MxmBloc.lastTileStart 4 3) = 4 % 3)) :=
  ⟨by decide, by decide, MxmBloc.blocked_accesses_in_bounds 4 3 (by decide) (by decide)⟩

/-- C4: with the program's candidate list (which contains no entry equal
to 512), every recorded speedup equals (elapsed time of the first swept
configuration) / (elapsed time of this configuration); in particular the
first configuration's recorded speedup is exactly 1. -/
theorem MxmBloc.sweep_speedup_vs_first (times : ℕ → ℚ) (h : times 0 ≠ 0) :
    MxmBloc.sweepSpeedups MxmBloc.block_sizes times =
      [1, times 0 / times 1, times 0 / times 2, times 0 / times 3,
        times 0 / times 4, times 0 / times 5] := by
  have henum : MxmBloc.block_sizes.enum =
      [(0, 8), (1, 16), (2, 32), (3, 64), (4, 128), (5, 256)] := rfl
  rw [MxmBloc.sweepSpeedups, henum]
  simp only [List.foldl_cons, List.foldl_nil, MxmBloc.sweepStep]
  norm_num [div_self h]

theorem MxmBloc.sweep_speedup_vs_first_witness :
    witTimes 0 ≠ 0 ∧
      MxmBloc.sweepSpeedups MxmBloc.block_sizes witTimes =
        [1, witTimes 0 / witTimes 1, witTimes 0 / witTimes 2,
          witTimes 0 / witTimes 3, witTimes 0 / witTimes 4,
          witTimes 0 / witTimes 5] :=
  ⟨by norm_num [witTimes],
    MxmBloc.sweep_speedup_vs_first witTimes (by norm_num [witTimes])⟩

/-- C5: the recorded bandwidth equals total_bytes · (1000 / msec) /
(1024·1024) with total_bytes = 4 · N³ · sizeof(double) = 4 · 512³ · 8, and
for every elapsed time msec > 0 it is strictly positive (finiteness is
automatic in the exact-rational model). -/
theorem MxmBloc.bandwidth_formula_and_positive (msec : ℚ) (h : 0 < msec) :
    MxmBloc.bandwidth msec =
        (4 * 512 ^ 3 * 8 : ℚ) * (1000 / msec) / (1024 * 1024) ∧
      0 < MxmBloc.bandwidth msec := by
  have hf : MxmBloc.bandwidth msec =
      (4 * 512 ^ 3 * 8 : ℚ) * (1000 / msec) / (1024 * 1024) := by
    rw [MxmBloc.bandwidth, MxmBloc.total_bytes, MxmBloc.total_ops, MxmBloc.N]
    norm_num
  refine ⟨hf, ?_⟩
  rw [hf]
  have h1 : (0 : ℚ) < 1000 / msec := div_pos (by norm_num) h
  have h2 : (0 : ℚ) < 4 * 512 ^ 3 * 8 := by norm_num
  have h3 : (0 : ℚ) < 1024 * 1024 := by norm_num
  exact div_pos (mul_pos h2 h1) h3

theorem MxmBloc.bandwidth_formula_and_positive_witness :
    (0 : ℚ) < 2 ∧
      (MxmBloc.bandwidth 2 =
          (4 * 512 ^ 3 * 8 : ℚ) * (1000 / 2) / (1024 * 1024) ∧
        0 < MxmBloc.bandwidth 2) :=
  ⟨by norm_num, MxmBloc.bandwidth_formula_and_positive 2 (by norm_num)⟩

/-- C6 counterexample: with every malloc failing and the results file
opening fine, main's startup proceeds into the seeding and multiplication
work instead of terminating with a diagnostic — the matrix allocation
results are never checked (mxm_bloc.c lines 44-52 store them directly). -/
theorem MxmBloc.alloc_failure_not_trapped :
    MxmBloc.mainStartup (fun _ => false) true = StartupOutcome.proceed := rfl

/-- C6 amended: allocation results never influence startup control flow
(a failed row allocation is dereferenced later, undefined behavior, with no
diagnostic); the only pre-multiplication diagnostic-and-terminate path is a
failed fopen of the results file, which prints a message and exits with the
nonzero status EXIT_FAILURE = 1. -/
theorem MxmBloc.startup_exit_paths (allocOk : ℕ → Bool) :
    MxmBloc.mainStartup allocOk false =
        StartupOutcome.diagExit "Error opening file!" 1 ∧
      MxmBloc.mainStartup allocOk true = StartupOutcome.proceed ∧
      (1 : ℕ) ≠ 0 :=
  ⟨rfl, rfl, one_ne_zero⟩

theorem mem_pairList {n i j : ℕ} : (i, j) ∈ pairList n ↔ i < n ∧ j < n := by
  constructor
  · intro h
    rw [pairList, List.mem_flatMap] at h
    obtain ⟨a, ha, hm⟩ := h
    rw [List.mem_map] at hm
    obtain ⟨b, hb, heq⟩ := hm
    have h1 : a = i := congrArg Prod.fst heq
    have h2 : b = j := congrArg Prod.snd heq
    subst h1
    subst h2
    exact ⟨List.mem_range.mp ha, List.mem_range.mp hb⟩
  · rintro ⟨hi, hj⟩
    rw [pairList, List.mem_flatMap]
    exact ⟨i, List.mem_range.mpr hi,
      List.mem_map.mpr ⟨j, List.mem_range.mpr hj, rfl⟩⟩

theorem seedFold_frame (r : ℕ → ℕ) (ps : List (ℕ × ℕ)) (s : SeedState) (i j : ℕ)
    (h : (i, j) ∉ ps) :
    (ps.foldl (seedStep r) s).A i j = s.A i j ∧
      (ps.foldl (seedStep r) s).B i j = s.B i j := by
  induction ps generalizing s with
  | nil => exact ⟨rfl, rfl⟩
  | cons p ps ih =>
      have hp : (i, j) ≠ p := fun he => h (by rw [he]; exact List.mem_cons_self p ps)
      have h2 : (i, j) ∉ ps := fun hm => h (List.mem_cons_of_mem p hm)
      rw [List.foldl_cons]
      obtain ⟨hA, hB⟩ := ih (seedStep r s p) h2
      have hno : ¬ (i = p.1 ∧ j = p.2) :=
        fun hc => hp (Prod.ext_iff.mpr ⟨hc.1, hc.2⟩)
      constructor
      · rw [hA]
        show (if i = p.1 ∧ j = p.2 then _ else s.A i j) = s.A i j
        rw [if_neg hno]
      · rw [hB]
        show (if i = p.1 ∧ j = p.2 then _ else s.B i j) = s.B i j
        rw [if_neg hno]

theorem seedFold_agree (r₁ r₂ : ℕ → ℕ) (hr : ∀ k, r₁ k = r₂ k)
    (ps : List (ℕ × ℕ)) (s₁ s₂ : SeedState) (hc : s₁.cnt = s₂.cnt) (i j : ℕ)
    (hm : (i, j) ∈ ps) :
    (ps.foldl (seedStep r₁) s₁).A i j = (ps.foldl (seedStep r₂) s₂).A i j ∧
      (ps.foldl (seedStep r₁) s₁).B i j = (ps.foldl (seedStep r₂) s₂).B i j := by
  induction ps generalizing s₁ s₂ with
  | nil => cases hm
  | cons p ps ih =>
      rw [List.foldl_cons, List.foldl_cons]
      by_cases hmem : (i, j) ∈ ps
      · exact ih (seedStep r₁ s₁ p) (seedStep r₂ s₂ p) (by simp [seedStep, hc]) hmem
      · have hp : p = (i, j) := by
          rcases List.mem_cons.mp hm with h | h
          · exact h.symm
          · exact absurd h hmem
        subst hp
        obtain ⟨f1A, f1B⟩ := seedFold_frame r₁ ps (seedStep r₁ s₁ (i, j)) i j hmem
        obtain ⟨f2A, f2B⟩ := seedFold_frame r₂ ps (seedStep r₂ s₂ (i, j)) i j hmem
        rw [f1A, f2A, f1B, f2B]
        constructor <;> simp [seedStep, setM, hr, hc]

theorem seedFold_range (r : ℕ → ℕ) (ps : List (ℕ × ℕ)) (s : SeedState) (i j : ℕ)
    (hm : (i, j) ∈ ps) :
    (1 ≤ (ps.foldl (seedStep r) s).A i j ∧ (ps.foldl (seedStep r) s).A i j ≤ 10) ∧
      (1 ≤ (ps.foldl (seedStep r) s).B i j ∧
        (ps.foldl (seedStep r) s).B i j ≤ 10) := by
  have hval : ∀ c : ℕ, 1 ≤ ((c % 10 : ℕ) : ℚ) + 1 ∧ ((c % 10 : ℕ) : ℚ) + 1 ≤ 10 := by
    intro c
    have h9 : (c % 10 : ℕ) ≤ 9 := by omega
    constructor
    · have h0 : (0 : ℚ) ≤ ((c % 10 : ℕ) : ℚ) := Nat.cast_nonneg _
      linarith
    · have h9q : ((c % 10 : ℕ) : ℚ) ≤ 9 := by exact_mod_cast h9
      linarith
  induction ps generalizing s with
  | nil => cases hm
  | cons p ps ih =>
      rw [List.foldl_cons]
      by_cases hmem : (i, j) ∈ ps
      · exact ih (seedStep r s p) hmem
      · have hp : p = (i, j) := by
          rcases List.mem_cons.mp hm with h | h
          · exact h.symm
          · exact absurd h hmem
        subst hp
        obtain ⟨fA, fB⟩ := seedFold_frame r ps (seedStep r s (i, j)) i j hmem
        rw [fA, fB]
        have hA : (seedStep r s (i, j)).A i j = ((r s.cnt % 10 : ℕ) : ℚ) + 1 := by
          show (if i = i ∧ j = j then _ else _) = _
          rw [if_pos ⟨rfl, rfl⟩]
        have hB : (seedStep r s (i, j)).B i j =
            ((r (s.cnt + 1) % 10 : ℕ) : ℚ) + 1 := by
          show (if i = i ∧ j = j then _ else _) = _
          rw [if_pos ⟨rfl, rfl⟩]
        rw [hA, hB]
        exact ⟨hval _, hval _⟩

/-- C7: seeding is a deterministic function of the rand() stream fixed by
srand(42): two executions whose streams agree pointwise produce identical
A and B entries at every seeded cell (i, j < n), whatever garbage the
freshly allocated matrices held, and every seeded value (rand() % 10 + 1.0)
lies in the range [1, 10]. -/
theorem MxmBloc.seeding_deterministic_in_range
    (r₁ r₂ : ℕ → ℕ) (hr : ∀ k, r₁ k = r₂ k) (n : ℕ)
    (A₁ B₁ C₁ A₂ B₂ C₂ : Mat) (i j : ℕ) (hi : i < n) (hj : j < n) :
    ((seedMatrices r₁ n ⟨0, A₁, B₁, C₁⟩).A i j =
        (seedMatrices r₂ n ⟨0, A₂, B₂, C₂⟩).A i j ∧
      (seedMatrices r₁ n ⟨0, A₁, B₁, C₁⟩).B i j =
        (seedMatrices r₂ n ⟨0, A₂, B₂, C₂⟩).B i j) ∧
    ((1 ≤ (seedMatrices r₁ n ⟨0, A₁, B₁, C₁⟩).A i j ∧
        (seedMatrices r₁ n ⟨0, A₁, B₁, C₁⟩).A i j ≤ 10) ∧
      (1 ≤ (seedMatrices r₁ n ⟨0, A₁, B₁, C₁⟩).B i j ∧
        (seedMatrices r₁ n ⟨0, A₁, B₁, C₁⟩).B i j ≤ 10)) := by
  have hm : (i, j) ∈ pairList n := mem_pairList.mpr ⟨hi, hj⟩
  unfold seedMatrices
  exact ⟨seedFold_agree r₁ r₂ hr (pairList n) ⟨0, A₁, B₁, C₁⟩ ⟨0, A₂, B₂, C₂⟩ rfl i j hm,
    seedFold_range r₁ (pairList n) ⟨0, A₁, B₁, C₁⟩ i j hm⟩

theorem MxmBloc.seeding_deterministic_in_range_witness :
    (∀ k, witR k = witR k) ∧ 0 < 1 ∧ 0 < 1 ∧
    (((seedMatrices witR 1 ⟨0, witA, witB, zeroMat⟩).A 0 0 =
        (seedMatrices witR 1 ⟨0, witB, witA, zeroMat⟩).A 0 0 ∧
      (seedMatrices witR 1 ⟨0, witA, witB, zeroMat⟩).B 0 0 =
        (seedMatrices witR 1 ⟨0, witB, witA, zeroMat⟩).B 0 0) ∧
    ((1 ≤ (seedMatrices witR 1 ⟨0, witA, witB, zeroMat⟩).A 0 0 ∧
        (seedMatrices witR 1 ⟨0, witA, witB, zeroMat⟩).A 0 0 ≤ 10) ∧
      (1 ≤ (seedMatrices witR 1 ⟨0, witA, witB, zeroMat⟩).B 0 0 ∧
        (seedMatrices witR 1 ⟨0, witA, witB, zeroMat⟩).B 0 0 ≤ 10))) :=
  ⟨fun _ => rfl, by decide, by decide,
    MxmBloc.seeding_deterministic_in_range witR witR (fun _ => rfl) 1
      witA witB zeroMat witB witA zeroMat 0 0 (by decide) (by decide)⟩

theorem foldl_keeps_AB {α : Type} (f : MMState → α → MMState)
    (hf : ∀ s x, (f s x).A = s.A ∧ (f s x).B = s.B) (l : List α) (s : MMState) :
    (l.foldl f s).A = s.A ∧ (l.foldl f s).B = s.B := by
  induction l generalizing s with
  | nil => exact ⟨rfl, rfl⟩
  | cons a l ih =>
      rw [List.foldl_cons]
      obtain ⟨h1, h2⟩ := ih (f s a)
      obtain ⟨h3, h4⟩ := hf s a
      exact ⟨h1.trans h3, h2.trans h4⟩

/-- C8: both multiplication routines mutate only the accumulator: the A
and B components of the full memory state are unchanged by standardState
and blockedState, for every dimension n and block size S. -/
theorem MxmBloc.multiply_mutates_only_C (n S : ℕ) (s : MMState) :
    (MxmBloc.standardState n s).A = s.A ∧ (MxmBloc.standardState n s).B = s.B ∧
      (MxmBloc.blockedState n S s).A = s.A ∧
      (MxmBloc.blockedState n S s).B = s.B := by
  have hstd : ∀ s : MMState,
      (MxmBloc.standardState n s).A = s.A ∧ (MxmBloc.standardState n s).B = s.B := by
    intro s
    unfold MxmBloc.standardState
    apply foldl_keeps_AB
    intro s i
    apply foldl_keeps_AB
    intro s k
    apply foldl_keeps_AB
    intro s j
    exact ⟨rfl, rfl⟩
  have hblk : ∀ s : MMState,
      (MxmBloc.blockedState n S s).A = s.A ∧ (MxmBloc.blockedState n S s).B = s.B := by
    intro s
    unfold MxmBloc.blockedState
    apply foldl_keeps_AB
    intro s ii
    apply foldl_keeps_AB
    intro s jj
    apply foldl_keeps_AB
    intro s kk
    apply foldl_keeps_AB
    intro s i
    apply foldl_keeps_AB
    intro s k
    apply foldl_keeps_AB
    intro s j
    exact ⟨rfl, rfl⟩
  exact ⟨(hstd s).1, (hstd s).2, (hblk s).1, (hblk s).2⟩

theorem MxmLoops.ijk_eq_applyTriples (m1 m2 R : Mat) (r1 c2 r2 : ℕ) :
    MxmLoops.ijk_loop m1 m2 R r1 c2 r2 =
      applyTriples m1 m2 (MxmLoops.ijkTriples r1 c2 r2) R := by
  rw [MxmLoops.ijk_loop, MxmLoops.ijkTriples, applyTriples]
  simp only [foldl_flatMap, List.foldl_map, mmStep]

theorem MxmLoops.ikj_eq_applyTriples (m1 m2 R : Mat) (r1 r2 c2 : ℕ) :
    MxmLoops.ikj_loop m1 m2 R r1 r2 c2 =
      applyTriples m1 m2 (MxmLoops.ikjTriples r1 r2 c2) R := by
  rw [MxmLoops.ikj_loop, MxmLoops.ikjTriples, applyTriples]
  simp only [foldl_flatMap, List.foldl_map, mmStep]

theorem MxmLoops.ijk_ikj_general (m1 m2 R : Mat) (r1 c2 r2 : ℕ) :
    MxmLoops.ijk_loop m1 m2 R r1 c2 r2 = MxmLoops.ikj_loop m1 m2 R r1 r2 c2 := by
  funext a b
  rw [MxmLoops.ijk_eq_applyTriples, MxmLoops.ikj_eq_applyTriples,
    applyTriples_apply, applyTriples_apply]
  congr 1
  have h1 : msum (MxmLoops.ijkTriples r1 c2 r2) (contrib m1 m2 a b) =
      msum (List.range r1) (fun i =>
        msum (List.range c2) (fun j =>
          msum (List.range r2) (fun k => contrib m1 m2 a b (i, k, j)))) := by
    rw [MxmLoops.ijkTriples]
    simp only [msum_flatMap, msum_map]
  have h2 : msum (MxmLoops.ikjTriples r1 r2 c2) (contrib m1 m2 a b) =
      msum (List.range r1) (fun i =>
        msum (List.range r2) (fun k =>
          msum (List.range c2) (fun j => contrib m1 m2 a b (i, k, j)))) := by
    rw [MxmLoops.ikjTriples]
    simp only [msum_flatMap, msum_map]
  rw [h1, h2]
  exact msum_congr (fun i _ => msum_comm _ _ _)

/-- C9: the i-j-k nest and the i-k-j nest of the loop-order comparison
program, run on the same inputs m1 and m2 with both result matrices
zero-initialized (and the program's dimensions R1 = R2 = C2 = 512),
produce element-wise identical result matrices: each cell accumulates its
products over k in the same ascending order. -/
theorem MxmLoops.result_ijk_eq_result_ikj (m1 m2 : Mat) :
    MxmLoops.ijk_loop m1 m2 zeroMat MxmLoops.R1 MxmLoops.C2 MxmLoops.R2 =
      MxmLoops.ikj_loop m1 m2 zeroMat MxmLoops.R1 MxmLoops.R2 MxmLoops.C2 :=
  MxmLoops.ijk_ikj_general m1 m2 zeroMat _ _ _

theorem foldl_add_eq_msum (a : ℕ → ℚ) (l : List ℕ) (acc : ℚ) :
    l.foldl (fun sum i => sum + a i) acc = acc + msum l a := by
  induction l generalizing acc with
  | nil => rw [msum_nil, add_zero]; rfl
  | cons x l ih => rw [List.foldl_cons, ih, msum_cons]; ring

theorem msum_const_one (l : List ℕ) : msum l (fun _ => (1 : ℚ)) = l.length := by
  induction l with
  | nil => rfl
  | cons x l ih =>
      rw [msum_cons, ih, List.length_cons]
      push_cast
      ring

/-- C10: for every stride 1 ≤ s ≤ MAX_STRIDE = 20, the scan of
exercice1.c visits exactly N = 1000000 indices, every visited index s·t
lies inside the allocated buffer of N · MAX_STRIDE doubles, and — the
buffer having been initialized to 1.0 — the computed sum is exactly
1000000, whatever garbage the buffer held before initialization. -/
theorem Exercice1.stride_scan_exact (a₀ : ℕ → ℚ) (s : ℕ)
    (hs1 : 1 ≤ s) (hs2 : s ≤ Exercice1.MAX_STRIDE) :
    (Exercice1.stride_indices Exercice1.N s).length = 1000000 ∧
      (∀ i ∈ Exercice1.stride_indices Exercice1.N s,
        i < Exercice1.N * Exercice1.MAX_STRIDE) ∧
      Exercice1.stride_sum (Exercice1.initBuffer a₀) Exercice1.N s = 1000000 := by
  have hlen : (Exercice1.stride_indices Exercice1.N s).length = Exercice1.N := by
    rw [Exercice1.stride_indices]
    exact stepRange_mul_length Exercice1.N s hs1
  have hbound : ∀ i ∈ Exercice1.stride_indices Exercice1.N s,
      i < Exercice1.N * Exercice1.MAX_STRIDE := by
    intro i hi
    have h1 : i < Exercice1.N * s := mem_stepRange_lt hs1 hi
    have h2 : Exercice1.N * s ≤ Exercice1.N * Exercice1.MAX_STRIDE :=
      Nat.mul_le_mul_left _ hs2
    omega
  refine ⟨by rw [hlen]; rfl, hbound, ?_⟩
  rw [Exercice1.stride_sum, foldl_add_eq_msum, zero_add]
  have hone : ∀ i ∈ Exercice1.stride_indices Exercice1.N s,
      Exercice1.initBuffer a₀ i = 1 := by
    intro i hi
    show (if i < Exercice1.N * Exercice1.MAX_STRIDE then (1 : ℚ) else a₀ i) = 1
    rw [if_pos (hbound i hi)]
  rw [msum_congr hone, msum_const_one, hlen]
  norm_num [Exercice1.N]

theorem Exercice1.stride_scan_exact_witness :
    1 ≤ 3 ∧ 3 ≤ Exercice1.MAX_STRIDE ∧
      ((Exercice1.stride_indices Exercice1.N 3).length = 1000000 ∧
        (∀ i ∈ Exercice1.stride_indices Exercice1.N 3,
          i < Exercice1.N * Exercice1.MAX_STRIDE) ∧
        Exercice1.stride_sum (Exercice1.initBuffer witTimes) Exercice1.N 3 =
          1000000) :=
  ⟨by decide, by decide, Exercice1.stride_scan_exact witTimes 3 (by decide) (by decide)⟩
